import Mathlib

/-!
Shallow embedding of the two scripts of the MACH-Aero tutorial repository:

* `tutorial/opt/ffd/simple_ffd.py` — the FFD control-lattice generator.
  The script hard-codes a root/tip bounding box, a resolution
  `(nX, nY, nZ) = (6, 2, 8)` and the span exponent `0.8`; the embedding
  abstracts those constant assignments into an `FFDConfig` record and keeps
  every formula of the script verbatim.  numpy arrays become lists of rows;
  a Python `IndexError` or `TypeError` (the `%`-format arity check) becomes
  `Option.none`.

* `tutorial/airfoilopt/singlepoint/airfoil_opt.py` — the `ksAgg`
  aggregation function (on real vectors) and the `--zeroLift`/`--cl`
  argument-normalization block (argparse floats are modelled as rationals,
  which share the exact decimal equality test the script performs).
-/

namespace MachTutorial

/-- Inputs of the FFD lattice generator: the constant assignments of
`simple_ffd.py` lines 4–17 turned into parameters.  A range `[a, b]` is the
pair `(a, b)`; `fst` is the Python index `[0]`, `snd` is `[1]`. -/
structure FFDConfig where
  xRootRange : ℝ × ℝ
  yRootRange : ℝ × ℝ
  zRoot : ℝ
  xTipRange : ℝ × ℝ
  yTipRange : ℝ × ℝ
  zTip : ℝ
  nX : ℕ
  nY : ℕ
  nZ : ℕ
  spanExponent : ℝ

/-- The concrete values assigned in `simple_ffd.py`. -/
noncomputable def scriptCfg : FFDConfig where
  xRootRange := (-0.1, 5.1)
  yRootRange := (-0.5, 0.5)
  zRoot := -0.01
  xTipRange := (7.4, 9.2)
  yTipRange := (-0.25, 0.25)
  zTip := 14.25
  nX := 6
  nY := 2
  nZ := 8
  spanExponent := 0.8

/-- Element `k` of `numpy.linspace(0, 1, nZ) ** spanExponent` (line 19).
For `nZ ≥ 2` numpy yields `k / (nZ - 1)`; for `nZ = 1` it yields `[0]`,
which the Lean convention `0 / 0 = 0` reproduces at `k = 0`.  The power is
the real power `Real.rpow`. -/
noncomputable def span_dist (cfg : FFDConfig) (k : ℕ) : ℝ :=
  ((k : ℝ) / ((cfg.nZ : ℝ) - 1)) ^ cfg.spanExponent

/-- Element `k` of `z_sections = span_dist*(z_tip - z_root) + z_root`
(line 20). -/
noncomputable def z_sections (cfg : FFDConfig) (k : ℕ) : ℝ :=
  span_dist cfg k * (cfg.zTip - cfg.zRoot) + cfg.zRoot

/-- Element `k` of
`x_te = span_dist*(x_tip_range[0] - x_root_range[0]) + x_root_range[0]`
(line 22). -/
noncomputable def x_te (cfg : FFDConfig) (k : ℕ) : ℝ :=
  span_dist cfg k * (cfg.xTipRange.fst - cfg.xRootRange.fst) + cfg.xRootRange.fst

/-- Element `k` of
`x_le = span_dist*(x_tip_range[1] - x_root_range[1]) + x_root_range[1]`
(line 23). -/
noncomputable def x_le (cfg : FFDConfig) (k : ℕ) : ℝ :=
  span_dist cfg k * (cfg.xTipRange.snd - cfg.xRootRange.snd) + cfg.xRootRange.snd

/-- Column `k` of the 2×nZ array `y_coords = numpy.vstack((...))` (line 24):
the two stacked rows evaluated at station `k`. -/
noncomputable def yPair (cfg : FFDConfig) (k : ℕ) : List ℝ :=
  [span_dist cfg k * (cfg.yTipRange.fst - cfg.yRootRange.fst) + cfg.yRootRange.fst,
   span_dist cfg k * (cfg.yTipRange.snd - cfg.yRootRange.snd) + cfg.yRootRange.snd]

/-- The array access `y_coords[j, k]`: `none` models the Python
`IndexError` when `j` exceeds the two stacked rows. -/
noncomputable def y_coords (cfg : FFDConfig) (j k : ℕ) : Option ℝ :=
  (yPair cfg k)[j]?

/-- `numpy.linspace(a, b, n)`: `n` samples `a + i*(b-a)/(n-1)`.  Over exact
real arithmetic this includes numpy's exact-endpoint overwrite
(`y[-1] = stop`), and the Lean convention `x / 0 = 0` reproduces numpy's
`num = 1` case `[a]`. -/
noncomputable def linspace (a b : ℝ) (n : ℕ) : List ℝ :=
  (List.range n).map fun (i : ℕ) => a + (i : ℝ) * (b - a) / ((n : ℝ) - 1)

/-- The row order of the fill loop (lines 29–35): `k` over `range nZ`
outside, `j` over `range nY` inside, so row `k*nY + j` holds the data of
station `k`, thickness level `j`. -/
def gridRows {α : Type} (nY nZ : ℕ) (f : ℕ → ℕ → α) : List α :=
  (List.range nZ).flatMap fun k => (List.range nY).map fun j => f k j

/-- The filled `X` array: row `k*nY + j` is
`numpy.linspace(x_te[k], x_le[k], nX)` (line 31). -/
noncomputable def Xgrid (cfg : FFDConfig) : List (List ℝ) :=
  gridRows cfg.nY cfg.nZ fun k _j => linspace (x_te cfg k) (x_le cfg k) cfg.nX

/-- The filled `Z` array: row `k*nY + j` is
`numpy.ones(nX)*z_sections[k]` (line 34). -/
noncomputable def Zgrid (cfg : FFDConfig) : List (List ℝ) :=
  gridRows cfg.nY cfg.nZ fun k _j => List.replicate cfg.nX (z_sections cfg k)

/-- Sequencing of fallible row computations: `none` as soon as one row
fails, mirroring the loop aborting at the first raised exception. -/
def allSome {α : Type} : List (Option α) → Option (List α)
  | [] => some []
  | none :: _ => none
  | some a :: l => (allSome l).map (a :: ·)

/-- The filled `Y` array: row `k*nY + j` is
`numpy.ones(nX)*y_coords[j, k]` (line 33); the whole fill fails (`none`)
if any access `y_coords[j, k]` raises. -/
noncomputable def Ygrid (cfg : FFDConfig) : Option (List (List ℝ)) :=
  allSome (gridRows cfg.nY cfg.nZ fun k j =>
    (y_coords cfg j k).map (List.replicate cfg.nX))

/-- One physical line of the output file `ffd.xyz`, at the level of
formatted fields: the constant block-count line, the dimension line, or a
line of six fixed-point values. -/
inductive FFDLine where
  | header1 : FFDLine
  | dims (nX nY nZ : ℕ) : FFDLine
  | vals (v : List ℝ) : FFDLine

/-- The statement `f.write(FMT % tuple(row))` where `FMT` holds exactly six
fixed-point conversion specifiers (line 45): Python's `%` operator raises a
`TypeError` unless the tuple has exactly six elements. -/
def formatRow (row : List ℝ) : Option FFDLine :=
  if row.length = 6 then some (FFDLine.vals row) else none

/-- The write block (lines 41–45): the block-count line, the dimension
line, then one formatted line per row of `X`, `Y`, `Z` in that order;
`none` when any row fails to format. -/
def writeFFD (cfg : FFDConfig) (X Y Z : List (List ℝ)) : Option (List FFDLine) :=
  (allSome ((X ++ Y ++ Z).map formatRow)).map fun ls =>
    FFDLine.header1 :: FFDLine.dims cfg.nX cfg.nY cfg.nZ :: ls

/-- The whole script: fill the grids, then write them.  A failure anywhere
(the `Y` fill or the formatter) aborts with no output. -/
noncomputable def generateFFD (cfg : FFDConfig) : Option (List FFDLine) :=
  (Ygrid cfg).bind fun ys => writeFFD cfg (Xgrid cfg) ys (Zgrid cfg)

/-- `np.max(g)` for a 1-d array `g` (errors on empty input; the claims only
concern nonempty `g`, where this is the maximum element). -/
noncomputable def npMax : List ℝ → ℝ
  | [] => 0
  | x :: xs => xs.foldl max x

/-- The function `ksAgg` of `airfoil_opt.py` (lines 18–32):
`maxg + 1.0 / rho * np.log(np.sum(np.exp(rho * (g - maxg))))`. -/
noncomputable def ksAgg (g : List ℝ) (rho : ℝ) : ℝ :=
  npMax g + 1 / rho * Real.log ((g.map fun x => Real.exp (rho * (x - npMax g))).sum)

/-- The naive log-sum-exp definition of the KS aggregate,
`(1/rho)·ln(Σ exp(rho·g_i))`, written from the spec side of the
refinement claim for comparison with `ksAgg`. -/
noncomputable def naiveLSE (g : List ℝ) (rho : ℝ) : ℝ :=
  1 / rho * Real.log ((g.map fun x => Real.exp (rho * x)).sum)

/-- The argparse result record of `airfoil_opt.py` (lines 35–50): parsed
float arguments carried as exact rationals, which share Python's exact
equality test `args.cl != 0.`. -/
structure Args where
  mach : ℚ
  output : String
  cl : ℚ
  alt : ℤ
  preTrim : Bool
  volCon : Bool
  volUpper : ℚ
  volLower : ℚ
  tcMin : ℚ
  zeroLift : Bool
  relThickLower : ℚ
  absThickLower : ℚ
deriving DecidableEq

/-- The normalization block (lines 52–55):
`if args.zeroLift and args.cl != 0.: args.cl = 0.`
`elif not args.zeroLift and args.cl == 0.: args.zeroLift = True`. -/
def normalizeArgs (a : Args) : Args :=
  if a.zeroLift = true ∧ a.cl ≠ 0 then { a with cl := 0 }
  else if ¬ a.zeroLift = true ∧ a.cl = 0 then { a with zeroLift := true }
  else a

/-- The script configuration with the thickness resolution raised to 3:
the fill loop then accesses the third row of the 2-row `y_coords` array. -/
noncomputable def cfgBadNY : FFDConfig := { scriptCfg with nY := 3 }

/-- The script configuration with the chordwise resolution raised to 7:
each grid row then has 7 samples but the format string expects 6. -/
noncomputable def cfgBadNX : FFDConfig := { scriptCfg with nX := 7 }

/-- The script configuration with a single spanwise station. -/
noncomputable def cfgNZ1 : FFDConfig := { scriptCfg with nZ := 1 }

/-! Helper lemmas about the embedded operations. -/

theorem linspace_length (a b : ℝ) (n : ℕ) : (linspace a b n).length = n := by
  rw [linspace, List.length_map, List.length_range]

theorem linspace_getElem (a b : ℝ) (n i : ℕ) (h : i < n) :
    (linspace a b n)[i]? = some (a + (i : ℝ) * (b - a) / ((n : ℝ) - 1)) := by
  rw [linspace, List.getElem?_map, List.getElem?_range h]
  rfl

theorem gridRows_succ {α : Type} (nY n : ℕ) (f : ℕ → ℕ → α) :
    gridRows nY (n + 1) f = gridRows nY n f ++ (List.range nY).map (f n) := by
  simp [gridRows, List.range_succ, List.flatMap_append]

theorem gridRows_length {α : Type} (nY nZ : ℕ) (f : ℕ → ℕ → α) :
    (gridRows nY nZ f).length = nZ * nY := by
  induction nZ with
  | zero => simp [gridRows]
  | succ n ih => rw [gridRows_succ, List.length_append, ih]; simp [Nat.succ_mul]

theorem gridRows_getElem {α : Type} (nY nZ : ℕ) (f : ℕ → ℕ → α) (k j : ℕ)
    (hk : k < nZ) (hj : j < nY) :
    (gridRows nY nZ f)[k * nY + j]? = some (f k j) := by
  induction nZ with
  | zero => exact absurd hk (Nat.not_lt_zero k)
  | succ n ih =>
    rw [gridRows_succ, List.getElem?_append]
    rcases Nat.lt_or_ge k n with h | h
    · have h1 : k * nY + j < k * nY + nY := Nat.add_lt_add_left hj _
      have h2 : k * nY + nY = (k + 1) * nY := (Nat.succ_mul k nY).symm
      have h3 : (k + 1) * nY ≤ n * nY := Nat.mul_le_mul_right nY (Nat.succ_le_of_lt h)
      have hc : k * nY + j < (gridRows nY n f).length := by
        rw [gridRows_length]; exact lt_of_lt_of_le (h2 ▸ h1) h3
      rw [if_pos hc]; exact ih h
    · have hk' : k = n := by omega
      subst hk'
      have hlen := gridRows_length nY k f
      rw [if_neg (by rw [hlen]; exact Nat.not_lt.mpr (Nat.le_add_right _ _)), hlen]
      have hj' : k * nY + j - k * nY = j := by omega
      rw [hj', List.getElem?_map, List.getElem?_range hj]
      rfl

theorem gridRows_mem {α : Type} {nY nZ : ℕ} {f : ℕ → ℕ → α} {x : α} :
    x ∈ gridRows nY nZ f ↔ ∃ k j, k < nZ ∧ j < nY ∧ x = f k j := by
  simp only [gridRows, List.mem_flatMap, List.mem_map, List.mem_range]
  constructor
  · rintro ⟨k, hk, j, hj, hx⟩; exact ⟨k, j, hk, hj, hx.symm⟩
  · rintro ⟨k, j, hk, hj, hx⟩; exact ⟨k, hk, j, hj, hx.symm⟩

theorem allSome_eq_some_iff {α : Type} {l : List (Option α)} {l' : List α} :
    allSome l = some l' ↔ l = l'.map some := by
  induction l generalizing l' with
  | nil => cases l' <;> simp [allSome]
  | cons h t ih =>
    cases h with
    | none => cases l' <;> simp [allSome]
    | some a =>
      cases l' with
      | nil => simp [allSome]
      | cons b t' =>
        constructor
        · intro h
          rcases Option.map_eq_some'.mp h with ⟨y, hy, hcons⟩
          injection hcons with h1 h2
          subst h1; subst h2
          rw [List.map_cons, ih.mp hy]
        · intro h
          rw [List.map_cons] at h
          injection h with h1 h2
          injection h1 with h1
          subst h1
          show (allSome t).map (a :: ·) = some (a :: t')
          rw [ih.mpr h2]
          rfl

theorem exists_allSome {α : Type} {l : List (Option α)} (h : ∀ x ∈ l, x.isSome) :
    ∃ l', allSome l = some l' := by
  induction l with
  | nil => exact ⟨[], rfl⟩
  | cons hd t ih =>
    cases hd with
    | none => simpa using h none (by simp)
    | some a =>
      obtain ⟨l', hl'⟩ := ih fun x hx => h x (by simp [hx])
      exact ⟨a :: l', by simp [allSome, hl']⟩

theorem le_foldl_max (l : List ℝ) (a : ℝ) : a ≤ l.foldl max a := by
  induction l generalizing a with
  | nil => exact le_refl a
  | cons x t ih => exact le_trans (le_max_left a x) (ih (max a x))

theorem mem_le_foldl_max (l : List ℝ) (a x : ℝ) (hx : x ∈ l) : x ≤ l.foldl max a := by
  induction l generalizing a with
  | nil => cases hx
  | cons y t ih =>
    rcases List.mem_cons.mp hx with h | h
    · subst h; exact le_trans (le_max_right a x) (le_foldl_max t (max a x))
    · exact ih (max a y) h

theorem foldl_max_mem (l : List ℝ) (a : ℝ) : l.foldl max a ∈ a :: l := by
  induction l generalizing a with
  | nil => simp [List.foldl]
  | cons x t ih =>
    have h := ih (max a x)
    rcases List.mem_cons.mp h with h1 | h1
    · rcases max_choice a x with hc | hc
      · exact List.mem_cons.mpr (Or.inl (by rw [List.foldl, h1, hc]))
      · refine List.mem_cons.mpr (Or.inr (List.mem_cons.mpr (Or.inl ?_)))
        rw [List.foldl, h1, hc]
    · exact List.mem_cons.mpr (Or.inr (List.mem_cons.mpr (Or.inr h1)))

theorem le_npMax {g : List ℝ} {x : ℝ} (hx : x ∈ g) : x ≤ npMax g := by
  cases g with
  | nil => cases hx
  | cons y t =>
    rcases List.mem_cons.mp hx with h | h
    · subst h; exact le_foldl_max t x
    · exact mem_le_foldl_max t y x h

theorem npMax_mem {g : List ℝ} (hg : g ≠ []) : npMax g ∈ g := by
  cases g with
  | nil => exact absurd rfl hg
  | cons y t => exact foldl_max_mem t y

theorem Ygrid_spec (cfg : FFDConfig) (h2 : cfg.nY ≤ 2) :
    ∃ ys, Ygrid cfg = some ys ∧ ys.length = cfg.nZ * cfg.nY ∧
      (∀ r ∈ ys, r.length = cfg.nX) ∧
      ∀ k j, k < cfg.nZ → j < cfg.nY →
        ys[k * cfg.nY + j]? = ((yPair cfg k)[j]?).map (List.replicate cfg.nX) := by
  have hsome : ∀ x ∈ gridRows cfg.nY cfg.nZ
      (fun k j => (y_coords cfg j k).map (List.replicate cfg.nX)), x.isSome := by
    intro x hx
    rcases gridRows_mem.mp hx with ⟨k, j, hk, hj, rfl⟩
    have hlen : j < (yPair cfg k).length := by
      simp only [yPair, List.length_cons, List.length_nil]
      omega
    simp [y_coords, List.getElem?_eq_getElem hlen]
  obtain ⟨ys, hys⟩ := exists_allSome hsome
  have hmap := allSome_eq_some_iff.mp hys
  refine ⟨ys, hys, ?_, ?_, ?_⟩
  · have hcl := congrArg List.length hmap
    rw [gridRows_length, List.length_map] at hcl
    exact hcl.symm
  · intro r hr
    have hmem : some r ∈ List.map some ys := List.mem_map_of_mem some hr
    rw [← hmap] at hmem
    rcases gridRows_mem.mp hmem with ⟨k, j, hk, hj, heq⟩
    cases hv : y_coords cfg j k with
    | none => rw [hv] at heq; simp at heq
    | some v =>
      rw [hv] at heq
      simp only [Option.map_some', Option.some.injEq] at heq
      simp [heq]
  · intro k j hk hj
    have hidx := gridRows_getElem cfg.nY cfg.nZ
      (fun k j => (y_coords cfg j k).map (List.replicate cfg.nX)) k j hk hj
    rw [hmap, List.getElem?_map] at hidx
    cases hr : ys[k * cfg.nY + j]? with
    | none => rw [hr] at hidx; simp at hidx
    | some r =>
      rw [hr] at hidx
      simp only [Option.map_some', Option.some.injEq] at hidx
      rw [y_coords] at hidx
      exact hidx

theorem Ygrid_length (cfg : FFDConfig) (ys : List (List ℝ)) (hy : Ygrid cfg = some ys) :
    ys.length = cfg.nZ * cfg.nY := by
  rw [Ygrid] at hy
  have hmap := allSome_eq_some_iff.mp hy
  have hcl := congrArg List.length hmap
  rw [gridRows_length, List.length_map] at hcl
  exact hcl.symm

theorem allRows_length (cfg : FFDConfig) (ys : List (List ℝ)) (hy : Ygrid cfg = some ys) :
    ∀ r ∈ Xgrid cfg ++ ys ++ Zgrid cfg, r.length = cfg.nX := by
  intro r hr
  rcases List.mem_append.mp hr with h | h
  · rcases List.mem_append.mp h with h | h
    · rcases gridRows_mem.mp h with ⟨k, j, _, _, rfl⟩
      exact linspace_length _ _ _
    · rw [Ygrid] at hy
      have hmap := allSome_eq_some_iff.mp hy
      have hmem : some r ∈ List.map some ys := List.mem_map_of_mem some h
      rw [← hmap] at hmem
      rcases gridRows_mem.mp hmem with ⟨k, j, hk, hj, heq⟩
      cases hv : y_coords cfg j k with
      | none => rw [hv] at heq; simp at heq
      | some v =>
        rw [hv] at heq
        simp only [Option.map_some', Option.some.injEq] at heq
        simp [heq]
  · rcases gridRows_mem.mp h with ⟨k, j, _, _, rfl⟩
    exact List.length_replicate _ _

theorem generateFFD_eq (cfg : FFDConfig) (h6 : cfg.nX = 6) (ys : List (List ℝ))
    (hy : Ygrid cfg = some ys) :
    generateFFD cfg = some (FFDLine.header1 :: FFDLine.dims cfg.nX cfg.nY cfg.nZ ::
      (Xgrid cfg ++ ys ++ Zgrid cfg).map FFDLine.vals) := by
  have h6' : ∀ r ∈ Xgrid cfg ++ ys ++ Zgrid cfg, r.length = 6 :=
    fun r hr => h6 ▸ allRows_length cfg ys hy r hr
  have hfmt : (Xgrid cfg ++ ys ++ Zgrid cfg).map formatRow
      = ((Xgrid cfg ++ ys ++ Zgrid cfg).map FFDLine.vals).map some := by
    rw [List.map_map]
    apply List.map_congr_left
    intro r hr
    simp [formatRow, h6' r hr, Function.comp]
  rw [generateFFD, hy]
  show writeFFD cfg (Xgrid cfg) ys (Zgrid cfg) = _
  rw [writeFFD, hfmt, allSome_eq_some_iff.mpr rfl]
  rfl

theorem foldl_max_replicate (c : ℝ) : ∀ m : ℕ, (List.replicate m c).foldl max c = c := by
  intro m
  induction m with
  | zero => rfl
  | succ m ih => rw [List.replicate_succ, List.foldl_cons, max_self]; exact ih

/-! Claim theorems. -/

/-- C1: for every station index `k < nZ` and thickness level `j < nY`, row
`k*nY + j` of the X grid is `numpy.linspace(x_te[k], x_le[k], nX)`: it has
exactly `nX` values, value `i` is `x_te_k + i·(x_le_k − x_te_k)/(nX−1)`,
and the two endpoints are exactly
`t_k·(xTipRange[0] − xRootRange[0]) + xRootRange[0]` and
`t_k·(xTipRange[1] − xRootRange[1]) + xRootRange[1]`. -/
theorem claim_C1 (cfg : FFDConfig) (k j : ℕ) (hk : k < cfg.nZ) (hj : j < cfg.nY)
    (hX : 2 ≤ cfg.nX) :
    (Xgrid cfg)[k * cfg.nY + j]? = some (linspace (x_te cfg k) (x_le cfg k) cfg.nX) ∧
    (linspace (x_te cfg k) (x_le cfg k) cfg.nX).length = cfg.nX ∧
    (∀ i, i < cfg.nX → (linspace (x_te cfg k) (x_le cfg k) cfg.nX)[i]? =
      some (x_te cfg k + (i : ℝ) * (x_le cfg k - x_te cfg k) / ((cfg.nX : ℝ) - 1))) ∧
    (linspace (x_te cfg k) (x_le cfg k) cfg.nX)[0]? =
      some (span_dist cfg k * (cfg.xTipRange.fst - cfg.xRootRange.fst) + cfg.xRootRange.fst) ∧
    (linspace (x_te cfg k) (x_le cfg k) cfg.nX)[cfg.nX - 1]? =
      some (span_dist cfg k * (cfg.xTipRange.snd - cfg.xRootRange.snd) + cfg.xRootRange.snd) := by
  refine ⟨gridRows_getElem _ _ _ k j hk hj, linspace_length _ _ _,
    fun i hi => linspace_getElem _ _ _ i hi, ?_, ?_⟩
  · rw [linspace_getElem _ _ _ 0 (by omega)]
    norm_num [x_te]
  · rw [linspace_getElem _ _ _ (cfg.nX - 1) (by omega)]
    have hd : ((cfg.nX : ℝ) - 1) ≠ 0 := by
      have h2 : (2 : ℝ) ≤ (cfg.nX : ℝ) := by exact_mod_cast hX
      linarith
    have hcast : ((cfg.nX - 1 : ℕ) : ℝ) = (cfg.nX : ℝ) - 1 := by
      rw [Nat.cast_sub (by omega), Nat.cast_one]
    have hval : x_te cfg k + ((cfg.nX : ℝ) - 1) * (x_le cfg k - x_te cfg k) / ((cfg.nX : ℝ) - 1)
        = x_le cfg k := by
      field_simp
    rw [hcast, hval, x_le]

/-- Witness for C1: the first X row of the script configuration. -/
theorem claim_C1_witness :
    (Xgrid scriptCfg)[0 * scriptCfg.nY + 0]? =
      some (linspace (x_te scriptCfg 0) (x_le scriptCfg 0) scriptCfg.nX) ∧
    (linspace (x_te scriptCfg 0) (x_le scriptCfg 0) scriptCfg.nX)[0]? =
      some (span_dist scriptCfg 0 * (scriptCfg.xTipRange.fst - scriptCfg.xRootRange.fst) +
        scriptCfg.xRootRange.fst) ∧
    (linspace (x_te scriptCfg 0) (x_le scriptCfg 0) scriptCfg.nX)[scriptCfg.nX - 1]? =
      some (span_dist scriptCfg 0 * (scriptCfg.xTipRange.snd - scriptCfg.xRootRange.snd) +
        scriptCfg.xRootRange.snd) := by
  have h := claim_C1 scriptCfg 0 0 (by norm_num [scriptCfg]) (by norm_num [scriptCfg])
    (by norm_num [scriptCfg])
  exact ⟨h.1, h.2.2.2.1, h.2.2.2.2⟩

/-- C2: for every station index `k < nZ` and thickness level `j < nY`, row
`k*nY + j` of the Z grid is `nX` copies of `z_k`, and when `zTip ≠ zRoot`
the station coordinates `z_0, ..., z_{nZ-1}` are strictly monotonic in `k`
(increasing when `zRoot < zTip`, decreasing when `zTip < zRoot`). -/
theorem claim_C2 (cfg : FFDConfig) (k j : ℕ) (hk : k < cfg.nZ) (hj : j < cfg.nY)
    (hZ : 2 ≤ cfg.nZ) (he : 0 < cfg.spanExponent) :
    (Zgrid cfg)[k * cfg.nY + j]? = some (List.replicate cfg.nX (z_sections cfg k)) ∧
    (cfg.zTip ≠ cfg.zRoot →
      (∀ a b : ℕ, a < b → b < cfg.nZ → z_sections cfg a < z_sections cfg b) ∨
      (∀ a b : ℕ, a < b → b < cfg.nZ → z_sections cfg b < z_sections cfg a)) := by
  constructor
  · exact gridRows_getElem _ _ _ k j hk hj
  · intro hne
    have hd : (0 : ℝ) < (cfg.nZ : ℝ) - 1 := by
      have h2 : (2 : ℝ) ≤ (cfg.nZ : ℝ) := by exact_mod_cast hZ
      linarith
    have hmono : ∀ a b : ℕ, a < b → span_dist cfg a < span_dist cfg b := by
      intro a b hab
      refine Real.rpow_lt_rpow (by positivity) ?_ he
      exact (div_lt_div_iff_of_pos_right hd).mpr (by exact_mod_cast hab)
    rcases lt_or_gt_of_ne hne with h | h
    · refine Or.inr fun a b hab _ => ?_
      have hm := mul_lt_mul_of_neg_right (hmono a b hab)
        (by linarith : cfg.zTip - cfg.zRoot < 0)
      simp only [z_sections]
      linarith
    · refine Or.inl fun a b hab _ => ?_
      have hm := mul_lt_mul_of_pos_right (hmono a b hab)
        (by linarith : 0 < cfg.zTip - cfg.zRoot)
      simp only [z_sections]
      linarith

/-- Witness for C2: row `3·nY + 1` of the Z grid of the script
configuration. -/
theorem claim_C2_witness :
    (Zgrid scriptCfg)[3 * scriptCfg.nY + 1]? =
      some (List.replicate scriptCfg.nX (z_sections scriptCfg 3)) :=
  (claim_C2 scriptCfg 3 1 (by norm_num [scriptCfg]) (by norm_num [scriptCfg])
    (by norm_num [scriptCfg]) (by norm_num [scriptCfg])).1

/-- C3: for every `nZ ≥ 2` and positive span exponent, the sequence
`t_k = (k/(nZ−1))^spanExponent` is monotonically non-decreasing, with
`t_0 = 0` and `t_{nZ-1} = 1`. -/
theorem claim_C3 (cfg : FFDConfig) (hZ : 2 ≤ cfg.nZ) (he : 0 < cfg.spanExponent) :
    (∀ k l : ℕ, k ≤ l → span_dist cfg k ≤ span_dist cfg l) ∧
    span_dist cfg 0 = 0 ∧ span_dist cfg (cfg.nZ - 1) = 1 := by
  have hd : (0 : ℝ) < (cfg.nZ : ℝ) - 1 := by
    have h2 : (2 : ℝ) ≤ (cfg.nZ : ℝ) := by exact_mod_cast hZ
    linarith
  refine ⟨?_, ?_, ?_⟩
  · intro k l hkl
    refine Real.rpow_le_rpow (by positivity) ?_ (le_of_lt he)
    exact (div_le_div_iff_of_pos_right hd).mpr (by exact_mod_cast hkl)
  · rw [span_dist, Nat.cast_zero, zero_div, Real.zero_rpow (ne_of_gt he)]
  · rw [span_dist, Nat.cast_sub (by omega), Nat.cast_one, div_self (ne_of_gt hd),
      Real.one_rpow]

/-- Witness for C3: the script configuration, `nZ = 8`, exponent `0.8`. -/
theorem claim_C3_witness :
    span_dist scriptCfg 0 = 0 ∧ span_dist scriptCfg (scriptCfg.nZ - 1) = 1 ∧
    span_dist scriptCfg 2 ≤ span_dist scriptCfg 5 := by
  have h := claim_C3 scriptCfg (by norm_num [scriptCfg]) (by norm_num [scriptCfg])
  exact ⟨h.2.1, h.2.2, h.1 2 5 (by norm_num)⟩

/-- C4 (amended): with the two-row `y_coords` array the script supports
exactly `nY = 2`; then all three grids have shape `(nY·nZ, nX)` and row
`k*nY + j` holds the data of station `k`, thickness level `j` (stations in
order, the `nY` thickness levels consecutive within each station). -/
theorem claim_C4 (cfg : FFDConfig) (h2 : cfg.nY = 2) :
    (Xgrid cfg).length = cfg.nY * cfg.nZ ∧
    (Zgrid cfg).length = cfg.nY * cfg.nZ ∧
    (∀ r ∈ Xgrid cfg, r.length = cfg.nX) ∧
    (∀ r ∈ Zgrid cfg, r.length = cfg.nX) ∧
    ∃ ys, Ygrid cfg = some ys ∧ ys.length = cfg.nY * cfg.nZ ∧
      (∀ r ∈ ys, r.length = cfg.nX) ∧
      ∀ k j, k < cfg.nZ → j < cfg.nY →
        (Xgrid cfg)[k * cfg.nY + j]? = some (linspace (x_te cfg k) (x_le cfg k) cfg.nX) ∧
        (Zgrid cfg)[k * cfg.nY + j]? = some (List.replicate cfg.nX (z_sections cfg k)) ∧
        ys[k * cfg.nY + j]? = ((yPair cfg k)[j]?).map (List.replicate cfg.nX) := by
  obtain ⟨ys, hys, hlen, hrows, hidx⟩ := Ygrid_spec cfg (le_of_eq h2)
  refine ⟨?_, ?_, ?_, ?_, ys, hys, ?_, hrows, ?_⟩
  · rw [Xgrid, gridRows_length, Nat.mul_comm]
  · rw [Zgrid, gridRows_length, Nat.mul_comm]
  · intro r hr
    rcases gridRows_mem.mp hr with ⟨k, j, _, _, rfl⟩
    exact linspace_length _ _ _
  · intro r hr
    rcases gridRows_mem.mp hr with ⟨k, j, _, _, rfl⟩
    exact List.length_replicate _ _
  · rw [hlen, Nat.mul_comm]
  · intro k j hk hj
    exact ⟨gridRows_getElem _ _ _ k j hk hj, gridRows_getElem _ _ _ k j hk hj,
      hidx k j hk hj⟩

/-- Counterexample for C4 as frozen: at the valid resolution `nY = 3`
(with the script's other inputs) the loop reads the third row of the 2-row
`y_coords` array, so the Y grid is never produced — the script dies with an
`IndexError` instead of emitting grids of shape `(nY·nZ, nX)`. -/
theorem claim_C4_counterexample : Ygrid cfgBadNY = none := by rfl

/-- Witness for C4: the script configuration itself (`nY = 2`). -/
theorem claim_C4_witness :
    (Ygrid scriptCfg).isSome = true ∧
    (Xgrid scriptCfg).length = scriptCfg.nY * scriptCfg.nZ := by
  obtain ⟨ys, hys, -, -, -⟩ := (claim_C4 scriptCfg rfl).2.2.2.2
  exact ⟨by rw [hys]; rfl, (claim_C4 scriptCfg rfl).1⟩

/-- C5 (amended): the output is the constant block-count line, the
dimension line `nX nY nZ`, then the rows of X, Y, Z in that order, each
grid row written as a single physical line of exactly six fixed-point
fields; the serialization succeeds only because `nX = 6` (the format
string has exactly six conversion specifiers, with no chunking of longer
rows). -/
theorem claim_C5 (cfg : FFDConfig) (h6 : cfg.nX = 6) (ys : List (List ℝ))
    (hy : Ygrid cfg = some ys) :
    generateFFD cfg = some (FFDLine.header1 :: FFDLine.dims cfg.nX cfg.nY cfg.nZ ::
      ((Xgrid cfg).map FFDLine.vals ++ ys.map FFDLine.vals ++ (Zgrid cfg).map FFDLine.vals)) ∧
    (Xgrid cfg).length = cfg.nY * cfg.nZ ∧ ys.length = cfg.nY * cfg.nZ ∧
    (Zgrid cfg).length = cfg.nY * cfg.nZ ∧
    ∀ r ∈ Xgrid cfg ++ ys ++ Zgrid cfg, r.length = cfg.nX ∧ r.length = 6 := by
  refine ⟨?_, ?_, ?_, ?_, ?_⟩
  · rw [generateFFD_eq cfg h6 ys hy, List.map_append, List.map_append]
  · rw [Xgrid, gridRows_length, Nat.mul_comm]
  · rw [Ygrid_length cfg ys hy, Nat.mul_comm]
  · rw [Zgrid, gridRows_length, Nat.mul_comm]
  · intro r hr
    exact ⟨allRows_length cfg ys hy r hr, h6 ▸ allRows_length cfg ys hy r hr⟩

/-- Counterexample for C5 as frozen: for the valid row length `nX = 7` the
`%`-formatting of a 7-value row against six conversion specifiers raises a
`TypeError`, so serialization fails instead of chunking the row. -/
theorem claim_C5_counterexample : generateFFD cfgBadNX = none := by rfl

/-- Witness for C5: the script configuration (`nX = 6`). -/
theorem claim_C5_witness :
    (generateFFD scriptCfg).isSome = true ∧
    (Xgrid scriptCfg).length = scriptCfg.nY * scriptCfg.nZ := by
  obtain ⟨ys, hys, -, -, -⟩ := Ygrid_spec scriptCfg (by norm_num [scriptCfg])
  have h := claim_C5 scriptCfg rfl ys hys
  exact ⟨by rw [h.1]; rfl, h.2.1⟩

/-- C6 (amended): the script performs no input validation and has no
`InvalidConfiguration` error; with the format-compatible `nX = 6` and a
thickness resolution within the two stacked y rows it produces an output
file for any `nZ`, including the degenerate `nZ = 1`
(`numpy.linspace(0, 1, 1)` returns `[0]` without error). -/
theorem claim_C6 (cfg : FFDConfig) (h6 : cfg.nX = 6) (h2 : cfg.nY ≤ 2) :
    (generateFFD cfg).isSome = true := by
  obtain ⟨ys, hys, -, -, -⟩ := Ygrid_spec cfg h2
  rw [generateFFD_eq cfg h6 ys hys]
  rfl

/-- Counterexample for C6 as frozen: at `nZ = 1` (the script's other
inputs unchanged) the generator produces an output file rather than
failing with an `InvalidConfiguration` error. -/
theorem claim_C6_counterexample : (generateFFD cfgNZ1).isSome = true := by rfl

/-- Witness for C6: the script configuration. -/
theorem claim_C6_witness : (generateFFD scriptCfg).isSome = true :=
  claim_C6 scriptCfg rfl (by norm_num [scriptCfg])

/-- C7: for every nonempty `g` and `rho > 0`, `ksAgg g rho` is at least
the maximum of `g` (the code's `np.max(g)` bounds every element and is
itself bounded by the aggregate), and on a constant vector of length
`n ≥ 1` the aggregate is exactly `c + ln(n)/rho`. -/
theorem claim_C7 (g : List ℝ) (rho c : ℝ) (n : ℕ) (hg : g ≠ []) (hrho : 0 < rho)
    (hn : 1 ≤ n) :
    (∀ x ∈ g, x ≤ npMax g) ∧ npMax g ≤ ksAgg g rho ∧
    ksAgg (List.replicate n c) rho = c + Real.log n / rho := by
  refine ⟨fun x hx => le_npMax hx, ?_, ?_⟩
  · rw [ksAgg]
    have hS : (1 : ℝ) ≤ (g.map fun x => Real.exp (rho * (x - npMax g))).sum := by
      have hmem : Real.exp (rho * (npMax g - npMax g)) ∈
          g.map fun x => Real.exp (rho * (x - npMax g)) :=
        List.mem_map_of_mem _ (npMax_mem hg)
      have hpos : ∀ y ∈ g.map fun x => Real.exp (rho * (x - npMax g)), (0 : ℝ) ≤ y := by
        intro y hy
        rcases List.mem_map.mp hy with ⟨x, _, rfl⟩
        exact (Real.exp_pos _).le
      have hle := List.single_le_sum hpos _ hmem
      simpa using hle
    have hlog := Real.log_nonneg hS
    have hterm : 0 ≤ 1 / rho * Real.log ((g.map fun x => Real.exp (rho * (x - npMax g))).sum) :=
      mul_nonneg (by positivity) hlog
    linarith
  · have hmaxr : npMax (List.replicate n c) = c := by
      cases n with
      | zero => exact absurd hn (by omega)
      | succ m =>
        rw [List.replicate_succ]
        exact foldl_max_replicate c m
    rw [ksAgg, hmaxr]
    have hconst : (List.replicate n c).map (fun x => Real.exp (rho * (x - c)))
        = List.replicate n 1 := by
      rw [List.map_replicate, sub_self, mul_zero, Real.exp_zero]
    rw [hconst, List.sum_replicate, nsmul_eq_mul, mul_one, one_div, inv_mul_eq_div]

/-- Witness for C7: `g = [1, 2]`, `rho = 1`, constant vector of two
fives. -/
theorem claim_C7_witness :
    (2 : ℝ) ≤ npMax [1, 2] ∧ npMax [1, 2] ≤ ksAgg [1, 2] 1 ∧
    ksAgg (List.replicate 2 (5 : ℝ)) 1 = 5 + Real.log ((2 : ℕ) : ℝ) / 1 := by
  have h := claim_C7 [1, 2] 1 5 2 (by simp) (by norm_num) (by norm_num)
  exact ⟨h.1 2 (by simp), h.2.1, h.2.2⟩

/-- C8: the generator is a pure function of its inputs — two runs on
configurations that agree on every input field produce the same output. -/
theorem claim_C8 (c1 c2 : FFDConfig)
    (h : c1.xRootRange = c2.xRootRange ∧ c1.yRootRange = c2.yRootRange ∧
      c1.zRoot = c2.zRoot ∧ c1.xTipRange = c2.xTipRange ∧
      c1.yTipRange = c2.yTipRange ∧ c1.zTip = c2.zTip ∧ c1.nX = c2.nX ∧
      c1.nY = c2.nY ∧ c1.nZ = c2.nZ ∧ c1.spanExponent = c2.spanExponent) :
    generateFFD c1 = generateFFD c2 := by
  obtain ⟨h1, h2, h3, h4, h5, h6, h7, h8, h9, h10⟩ := h
  cases c1
  cases c2
  simp only at h1 h2 h3 h4 h5 h6 h7 h8 h9 h10
  subst h1 h2 h3 h4 h5 h6 h7 h8 h9 h10
  rfl

/-- Witness for C8: two runs on the script configuration. -/
theorem claim_C8_witness : generateFFD scriptCfg = generateFFD scriptCfg :=
  claim_C8 scriptCfg scriptCfg
    ⟨rfl, rfl, rfl, rfl, rfl, rfl, rfl, rfl, rfl, rfl⟩

/-- C9: over exact real arithmetic the stabilized form computed by
`ksAgg` equals the naive log-sum-exp `(1/rho)·ln(Σ exp(rho·g_i))` for
every nonempty `g` and `rho > 0`. -/
theorem claim_C9 (g : List ℝ) (rho : ℝ) (hg : g ≠ []) (hrho : 0 < rho) :
    ksAgg g rho = naiveLSE g rho := by
  have hS : 0 < (g.map fun x => Real.exp (rho * x)).sum := by
    apply List.sum_pos
    · intro y hy
      rcases List.mem_map.mp hy with ⟨x, _, rfl⟩
      exact Real.exp_pos _
    · exact fun hnil => hg (List.map_eq_nil_iff.mp hnil)
  have hsplit : (g.map fun x => Real.exp (rho * (x - npMax g))).sum
      = (g.map fun x => Real.exp (rho * x)).sum * Real.exp (-(rho * npMax g)) := by
    have hfun : (fun x => Real.exp (rho * (x - npMax g)))
        = fun x => Real.exp (rho * x) * Real.exp (-(rho * npMax g)) := by
      funext x
      rw [← Real.exp_add]
      congr 1
      ring
    rw [hfun, List.sum_map_mul_right]
  rw [ksAgg, naiveLSE, hsplit,
    Real.log_mul (ne_of_gt hS) (Real.exp_ne_zero _), Real.log_exp]
  field_simp
  ring

/-- Witness for C9: `g = [0]`, `rho = 1`. -/
theorem claim_C9_witness : ksAgg [0] 1 = naiveLSE [0] 1 :=
  claim_C9 [0] 1 (by simp) (by norm_num)

/-- C10: after the normalization block, `zeroLift` holds exactly when
`cl = 0`, and every other parsed field is unchanged. -/
theorem claim_C10 (a : Args) :
    ((normalizeArgs a).zeroLift = true ↔ (normalizeArgs a).cl = 0) ∧
    (normalizeArgs a).mach = a.mach ∧ (normalizeArgs a).output = a.output ∧
    (normalizeArgs a).alt = a.alt ∧ (normalizeArgs a).preTrim = a.preTrim ∧
    (normalizeArgs a).volCon = a.volCon ∧ (normalizeArgs a).volUpper = a.volUpper ∧
    (normalizeArgs a).volLower = a.volLower ∧ (normalizeArgs a).tcMin = a.tcMin ∧
    (normalizeArgs a).relThickLower = a.relThickLower ∧
    (normalizeArgs a).absThickLower = a.absThickLower := by
  cases hz : a.zeroLift <;> by_cases hc : a.cl = 0 <;>
    simp [normalizeArgs, hz, hc]

end MachTutorial
